import Mathlib

/-!
Verification of the document-extraction and text-sanitization core of the
ai-content-creator repository, shallowly embedded in Lean.

Strings are modelled as `List Char` (Python `str` is a sequence of Unicode
code points).  `pyReplace` models Python's `str.replace`, the regex
substitutions of the source are modelled by the equivalent total functions
on `List Char`, and the `.docx` document model (python-docx) is modelled by
explicit lists of body nodes and identity-keyed collections.
-/

/-- Python strings as lists of Unicode characters. -/
abbrev Str := List Char

/-- Fuel-driven worker for `pyReplace`.  One unit of fuel is spent per step
and each step consumes at least one character of `s`, so with initial fuel
`s.length` the fuel never runs out; the `0` case is dead code returning `[]`. -/
def pyReplaceF (pat rep : Str) : Nat → Str → Str
  | 0, _ => []
  | _ + 1, [] => []
  | fuel + 1, c :: rest =>
    if pat ≠ [] ∧ pat.isPrefixOf (c :: rest) then
      rep ++ pyReplaceF pat rep fuel (List.drop pat.length (c :: rest))
    else
      c :: pyReplaceF pat rep fuel rest

/-- Python `s.replace(pat, rep)`: replace every occurrence of `pat` in `s`
by `rep`, scanning left to right without overlap.  (Python's behaviour for
an empty pattern, interleaving `rep` everywhere, is not modelled: every
pattern used by this repository is non-empty, and for `pat = []` this
function is the identity.) -/
def pyReplace (pat rep s : Str) : Str := pyReplaceF pat rep s.length s

lemma pyReplaceF_nil (pat rep : Str) (fuel : Nat) : pyReplaceF pat rep fuel [] = [] := by
  cases fuel <;> rfl

lemma pyReplace_nil (pat rep : Str) : pyReplace pat rep [] = [] := rfl

/-- Every character of a `pyReplace` output comes from the input or from the
replacement string. -/
lemma mem_of_mem_pyReplaceF {a : Char} {pat rep : Str} :
    ∀ fuel s, a ∈ pyReplaceF pat rep fuel s → a ∈ s ∨ a ∈ rep := by
  intro fuel
  induction fuel with
  | zero => intro s h; simp [pyReplaceF] at h
  | succ n ih =>
    intro s h
    match s with
    | [] => simp [pyReplaceF] at h
    | c :: rest =>
      rw [pyReplaceF] at h
      split at h
      · rcases List.mem_append.mp h with h1 | h1
        · exact Or.inr h1
        · rcases ih _ h1 with h2 | h2
          · exact Or.inl (List.mem_of_mem_drop h2)
          · exact Or.inr h2
      · rcases List.mem_cons.mp h with h1 | h1
        · exact Or.inl (h1 ▸ List.mem_cons_self c rest)
        · rcases ih _ h1 with h2 | h2
          · exact Or.inl (List.mem_cons_of_mem c h2)
          · exact Or.inr h2

lemma mem_of_mem_pyReplace {a : Char} {pat rep s : Str} (h : a ∈ pyReplace pat rep s) :
    a ∈ s ∨ a ∈ rep :=
  mem_of_mem_pyReplaceF s.length s h

/-- Replacing a single character `a` by a string not containing `a`
eliminates `a` completely. -/
lemma not_mem_pyReplaceF_single {a : Char} {rep : Str} (hrep : a ∉ rep) :
    ∀ fuel s, a ∉ pyReplaceF [a] rep fuel s := by
  intro fuel
  induction fuel with
  | zero => intro s h; simp [pyReplaceF] at h
  | succ n ih =>
    intro s h
    match s with
    | [] => simp [pyReplaceF] at h
    | c :: rest =>
      rw [pyReplaceF] at h
      split at h
      · rcases List.mem_append.mp h with h1 | h1
        · exact hrep h1
        · exact ih _ h1
      · rename_i hguard
        rcases List.mem_cons.mp h with h1 | h1
        · apply hguard
          refine ⟨by simp, ?_⟩
          rw [List.isPrefixOf_iff_prefix, ← h1]
          exact ⟨rest, rfl⟩
        · exact ih _ h1

lemma not_mem_pyReplace_single {a : Char} {rep s : Str} (hrep : a ∉ rep) :
    a ∉ pyReplace [a] rep s :=
  not_mem_pyReplaceF_single hrep s.length s

/-- If the pattern does not occur in `s`, `pyReplace` is the identity. -/
lemma pyReplaceF_eq_self_of_not_infix {pat rep : Str} :
    ∀ fuel s, s.length ≤ fuel → ¬ (pat <:+: s) → pyReplaceF pat rep fuel s = s := by
  intro fuel
  induction fuel with
  | zero =>
    intro s hlen _
    have : s = [] := List.length_eq_zero.mp (Nat.le_zero.mp hlen)
    simp [this, pyReplaceF]
  | succ n ih =>
    intro s hlen hocc
    match s with
    | [] => rfl
    | c :: rest =>
      rw [pyReplaceF, if_neg]
      · have : ¬ (pat <:+: rest) := fun h => hocc (h.trans (List.suffix_cons c rest).isInfix)
        rw [ih rest (by simpa using hlen) this]
      · rintro ⟨-, hpre⟩
        exact hocc (List.isPrefixOf_iff_prefix.mp hpre).isInfix

lemma pyReplace_eq_self_of_not_infix {pat rep s : Str} (h : ¬ (pat <:+: s)) :
    pyReplace pat rep s = s :=
  pyReplaceF_eq_self_of_not_infix s.length s le_rfl h

/-- A single-character pattern occurs iff the character is present. -/
lemma singleton_infix_iff {a : Char} {s : Str} : [a] <:+: s ↔ a ∈ s := by
  constructor
  · intro h; exact h.subset (List.mem_singleton_self a)
  · intro h
    rcases List.append_of_mem h with ⟨u, v, rfl⟩
    exact ⟨u, v, by simp⟩

lemma pyReplace_eq_self_of_not_mem {a : Char} {rep s : Str} (h : a ∉ s) :
    pyReplace [a] rep s = s :=
  pyReplace_eq_self_of_not_infix (fun hocc => h (singleton_infix_iff.mp hocc))

/-- Replacing a pattern by itself is the identity (`str.replace(p, p)`). -/
lemma pyReplaceF_self {pat : Str} :
    ∀ fuel s, s.length ≤ fuel → pyReplaceF pat pat fuel s = s := by
  intro fuel
  induction fuel with
  | zero =>
    intro s hlen
    have : s = [] := List.length_eq_zero.mp (Nat.le_zero.mp hlen)
    simp [this, pyReplaceF]
  | succ n ih =>
    intro s hlen
    match s with
    | [] => rfl
    | c :: rest =>
      rw [pyReplaceF]
      split
      · rename_i hguard
        have hpre := List.isPrefixOf_iff_prefix.mp hguard.2
        have hsplit : pat ++ List.drop pat.length (c :: rest) = c :: rest :=
          List.prefix_iff_eq_append.mp hpre
        have hpat1 : 1 ≤ pat.length := by
          rcases pat with _ | ⟨x, t⟩
          · exact absurd rfl hguard.1
          · simp
        have hdroplen : (List.drop pat.length (c :: rest)).length ≤ n := by
          simp only [List.length_drop, List.length_cons]
          simp only [List.length_cons] at hlen
          omega
        rw [ih _ hdroplen, hsplit]
      · rw [ih rest (by simpa using hlen)]

lemma pyReplace_self {pat s : Str} : pyReplace pat pat s = s :=
  pyReplaceF_self s.length s le_rfl

/-- Characters not in the pattern nor in the replacement keep their count. -/
lemma count_pyReplaceF {a : Char} {pat rep : Str} (hpat : a ∉ pat) (hrep : a ∉ rep) :
    ∀ fuel s, s.length ≤ fuel → (pyReplaceF pat rep fuel s).count a = s.count a := by
  intro fuel
  induction fuel with
  | zero =>
    intro s hlen
    have : s = [] := List.length_eq_zero.mp (Nat.le_zero.mp hlen)
    simp [this, pyReplaceF]
  | succ n ih =>
    intro s hlen
    match s with
    | [] => rfl
    | c :: rest =>
      rw [pyReplaceF]
      split
      · rename_i hguard
        have hpre := List.isPrefixOf_iff_prefix.mp hguard.2
        have hsplit : pat ++ List.drop pat.length (c :: rest) = c :: rest :=
          List.prefix_iff_eq_append.mp hpre
        have hpat1 : 1 ≤ pat.length := by
          rcases pat with _ | ⟨x, t⟩
          · exact absurd rfl hguard.1
          · simp
        have hdroplen : (List.drop pat.length (c :: rest)).length ≤ n := by
          simp only [List.length_drop, List.length_cons]
          simp only [List.length_cons] at hlen
          omega
        rw [List.count_append, ih _ hdroplen]
        conv_rhs => rw [← hsplit, List.count_append]
        rw [List.count_eq_zero_of_not_mem hpat, List.count_eq_zero_of_not_mem hrep]
      · rw [List.count_cons, List.count_cons,
          ih rest (by simpa using hlen)]

lemma count_pyReplace {a : Char} {pat rep s : Str} (hpat : a ∉ pat) (hrep : a ∉ rep) :
    (pyReplace pat rep s).count a = s.count a :=
  count_pyReplaceF hpat hrep s.length s le_rfl

/-- `re.sub(r' {2,}', ' ', text)`: every maximal run of two or more ASCII
spaces becomes a single space (runs of one are left alone, so every maximal
run maps to exactly one space). -/
def collapseSpaces : Str → Str
  | [] => []
  | [c] => [c]
  | c1 :: c2 :: rest =>
    if c1 = ' ' ∧ c2 = ' ' then collapseSpaces (c2 :: rest)
    else c1 :: collapseSpaces (c2 :: rest)

/-- `re.sub(r'\n{3,}', '\n\n', text)`: every maximal run of three or more
newlines becomes exactly two. -/
def collapseNewlines : Str → Str
  | [] => []
  | [c] => [c]
  | [c1, c2] => [c1, c2]
  | c1 :: c2 :: c3 :: rest =>
    if c1 = '\n' ∧ c2 = '\n' ∧ c3 = '\n' then collapseNewlines (c2 :: c3 :: rest)
    else c1 :: collapseNewlines (c2 :: c3 :: rest)

/-- Whether the string contains two adjacent ASCII spaces. -/
def hasDS : Str → Bool
  | c1 :: c2 :: rest => (c1 = ' ' && c2 = ' ') || hasDS (c2 :: rest)
  | _ => false

/-- Whether the string starts with an ASCII space. -/
def headIsSpace : Str → Bool
  | c :: _ => c = ' '
  | [] => false

lemma hasDS_cons (c : Char) (l : Str) :
    hasDS (c :: l) = ((decide (c = ' ') && headIsSpace l) || hasDS l) := by
  cases l <;> simp [hasDS, headIsSpace]

lemma collapseSpaces_head (l : Str) : headIsSpace (collapseSpaces l) = headIsSpace l := by
  match l with
  | [] => rfl
  | [c] => rfl
  | c1 :: c2 :: rest =>
    rw [collapseSpaces]
    split
    · rename_i hg
      rw [collapseSpaces_head (c2 :: rest)]
      simp [headIsSpace, hg.1, hg.2]
    · rfl

lemma collapseSpaces_hasDS (l : Str) : hasDS (collapseSpaces l) = false := by
  match l with
  | [] => rfl
  | [c] => rfl
  | c1 :: c2 :: rest =>
    rw [collapseSpaces]
    split
    · exact collapseSpaces_hasDS (c2 :: rest)
    · rename_i hg
      rw [hasDS_cons, collapseSpaces_hasDS (c2 :: rest), collapseSpaces_head]
      rcases Decidable.em (c1 = ' ') with h1 | h1
      · have h2 : c2 ≠ ' ' := fun h => hg ⟨h1, h⟩
        simp [headIsSpace, h2]
      · simp [h1]

lemma collapseSpaces_eq_self {l : Str} (h : hasDS l = false) : collapseSpaces l = l := by
  match l with
  | [] => rfl
  | [c] => rfl
  | c1 :: c2 :: rest =>
    rw [hasDS] at h
    rcases Bool.or_eq_false_iff.mp h with ⟨h1, h2⟩
    rw [collapseSpaces, if_neg, collapseSpaces_eq_self h2]
    intro hg
    simp [hg.1, hg.2] at h1

lemma mem_of_mem_collapseSpaces {a : Char} {l : Str} (h : a ∈ collapseSpaces l) : a ∈ l := by
  match l with
  | [] => simp [collapseSpaces] at h
  | [c] => exact h
  | c1 :: c2 :: rest =>
    rw [collapseSpaces] at h
    split at h
    · exact List.mem_cons_of_mem c1 (mem_of_mem_collapseSpaces h)
    · rcases List.mem_cons.mp h with h1 | h1
      · exact h1 ▸ List.mem_cons_self _ _
      · exact List.mem_cons_of_mem c1 (mem_of_mem_collapseSpaces h1)

/-- The ASCII apostrophe (written by code point to keep literals unambiguous). -/
def apos : Char := Char.ofNat 39

/-- U+2014 EM DASH. -/
def emDash : Char := Char.ofNat 0x2014

/-- U+2013 EN DASH. -/
def enDash : Char := Char.ofNat 0x2013

/-- U+2026 HORIZONTAL ELLIPSIS. -/
def hellip : Char := Char.ofNat 0x2026

/-- `text.replace('\r\n', '\n').replace('\r', '\n')`
(`InputProcessingService.normalize_line_breaks`; also Step 1 of
`DocxParser._make_json_compatible`). -/
def normalize_line_breaks (text : Str) : Str :=
  pyReplace ['\r'] ['\n'] (pyReplace ['\r', '\n'] ['\n'] text)

/-- The character class of `re.sub(r'[\x00-\x08\x0B\x0C\x0E-\x1F\x7F]', '', text)`:
C0 control characters except tab (9), newline (10) and carriage return (13),
plus DEL (0x7F). -/
def isRemovedControl (c : Char) : Bool :=
  (c.toNat ≤ 0x08) || c.toNat == 0x0B || c.toNat == 0x0C ||
    (0x0E ≤ c.toNat && c.toNat ≤ 0x1F) || c.toNat == 0x7F

/-- `InputProcessingService.remove_control_chars`; also Step 2 of
`DocxParser._make_json_compatible`.  A character-class deletion regex is a
filter. -/
def remove_control_chars (text : Str) : Str := text.filter (fun c => !(isRemovedControl c))

/-- `InputProcessingService.normalize_whitespace`; also Step 3 of
`DocxParser._make_json_compatible`: `re.sub(r' {2,}', ' ', text)`. -/
def normalize_whitespace (text : Str) : Str := collapseSpaces text

/-- The second key of `InputProcessingService.QUOTE_MAPPINGS` as it stands in
the source file.  The intended typographic-quote literals were flattened to
ASCII in the file, so the dict literal parses (checked with Python's `ast`)
as `{'"': '"', ': "\'", ': "'"}`: an identity mapping on the ASCII double
quote plus this stray seven-character key mapping to an apostrophe. -/
def QUOTE_KEY2 : Str := [':', ' ', '"', apos, '"', ',', ' ']

/-- `InputProcessingService.normalize_quotes`: iterates `QUOTE_MAPPINGS` in
insertion order, so it is `text.replace('"', '"').replace(': "\'", ', "'")`. -/
def normalize_quotes (text : Str) : Str :=
  pyReplace QUOTE_KEY2 [apos] (pyReplace ['"'] ['"'] text)

/-- `InputProcessingService.normalize_special_chars`; also Step 5 of
`DocxParser._make_json_compatible`:
`text.replace('—', '--').replace('–', '-').replace('…', '...')`. -/
def normalize_special_chars (text : Str) : Str :=
  pyReplace [hellip] ['.', '.', '.'] (pyReplace [enDash] ['-'] (pyReplace [emDash] ['-', '-'] text))

/-- `InputProcessingService.escape_backslashes`; also Step 6 of
`DocxParser._make_json_compatible`: `text.replace('\\', '\\\\')`. -/
def escape_backslashes (text : Str) : Str := pyReplace ['\\'] ['\\', '\\'] text

/-- `InputProcessingService.sanitize_text`: the six-transform text-input
sanitization path (`if not content: return ""`, then the six transforms in
order; there is no quote-escaping step on this path). -/
def sanitize_text (content : Str) : Str :=
  if content = [] then []
  else
    escape_backslashes (normalize_special_chars (normalize_quotes
      (normalize_whitespace (remove_control_chars (normalize_line_breaks content)))))

/-- Step 4 of `DocxParser._make_json_compatible` as it stands in the source
file.  As with `QUOTE_MAPPINGS`, the typographic-quote literals were
flattened to ASCII, so (checked with Python's `ast`) line 242 is the identity
`text.replace('"', '"').replace('"', '"')` and line 243 is one call
`text.replace(', "\'").replace(', "'")` replacing a stray fifteen-character
pattern by an apostrophe. -/
def DOCX_STEP4_KEY : Str :=
  [',', ' ', '"', apos, '"', ')', '.', 'r', 'e', 'p', 'l', 'a', 'c', 'e', '(']

/-- Lines 242-243 of `docx_parser.py` (Step 4). -/
def docxStep4 (text : Str) : Str :=
  pyReplace DOCX_STEP4_KEY [apos] (pyReplace ['"'] ['"'] (pyReplace ['"'] ['"'] text))

/-- Step 7 of `DocxParser._make_json_compatible`: `text.replace('"', '\\"')`. -/
def escape_quotes (text : Str) : Str := pyReplace ['"'] ['\\', '"'] text

/-- `DocxParser._make_json_compatible`: `if not text: return text`, then the
seven ordered stages. -/
def make_json_compatible (text : Str) : Str :=
  if text = [] then text
  else
    escape_quotes (escape_backslashes (normalize_special_chars (docxStep4
      (collapseSpaces (remove_control_chars (normalize_line_breaks text))))))

lemma not_infix_of_not_mem {pat t : Str} {a : Char} (ha : a ∈ pat) (ht : a ∉ t) :
    ¬ (pat <:+: t) := fun h => ht (h.subset ha)

lemma headIsSpace_pyReplaceF {d : Char} {rep : Str} (hrep : ∀ x ∈ rep, x ≠ ' ')
    (hne : rep ≠ []) (fuel : Nat) (s : Str) (hs : headIsSpace s = false) :
    headIsSpace (pyReplaceF [d] rep fuel s) = false := by
  cases fuel with
  | zero => rfl
  | succ n =>
    cases s with
    | nil => rfl
    | cons c rest =>
      rw [pyReplaceF]
      split
      · rcases rep with _ | ⟨r0, rs⟩
        · exact absurd rfl hne
        · have : r0 ≠ ' ' := hrep r0 (by simp)
          simp [headIsSpace, this]
      · simpa [headIsSpace] using hs

lemma hasDS_append {u v : Str} (hu : ∀ x ∈ u, x ≠ ' ') (hv : hasDS v = false) :
    hasDS (u ++ v) = false := by
  induction u with
  | nil => simpa using hv
  | cons x u' ih =>
    rw [List.cons_append, hasDS_cons]
    have hx : x ≠ ' ' := hu x (by simp)
    simp [hx, ih (fun y hy => hu y (List.mem_cons_of_mem x hy))]

/-- Replacing a single character by a nonempty space-free string cannot
create a run of two spaces. -/
lemma hasDS_pyReplaceF {d : Char} {rep : Str} (hrep : ∀ x ∈ rep, x ≠ ' ') (hne : rep ≠ []) :
    ∀ fuel s, hasDS s = false → hasDS (pyReplaceF [d] rep fuel s) = false := by
  intro fuel
  induction fuel with
  | zero => intro s _; rfl
  | succ n ih =>
    intro s hs
    cases s with
    | nil => rfl
    | cons c rest =>
      rw [hasDS_cons] at hs
      rcases Bool.or_eq_false_iff.mp hs with ⟨hs1, hs2⟩
      rw [pyReplaceF]
      split
      · have hdrop : List.drop ([d] : Str).length (c :: rest) = rest := by simp
        rw [hdrop]
        exact hasDS_append hrep (ih rest hs2)
      · rw [hasDS_cons, ih rest hs2]
        rcases Decidable.em (c = ' ') with hc | hc
        · have hrest : headIsSpace rest = false := by
            simpa [hc] using hs1
          simp [headIsSpace_pyReplaceF hrep hne n rest hrest]
        · simp [hc]

lemma hasDS_pyReplace {d : Char} {rep s : Str} (hrep : ∀ x ∈ rep, x ≠ ' ')
    (hne : rep ≠ []) (h : hasDS s = false) : hasDS (pyReplace [d] rep s) = false :=
  hasDS_pyReplaceF hrep hne s.length s h

lemma not_mem_cr_normalize_line_breaks (t : Str) : '\r' ∉ normalize_line_breaks t :=
  not_mem_pyReplace_single (by decide)

lemma mem_of_mem_normalize_line_breaks {a : Char} {t : Str}
    (h : a ∈ normalize_line_breaks t) : a ∈ t ∨ a = '\n' := by
  rw [normalize_line_breaks] at h
  rcases mem_of_mem_pyReplace h with h1 | h1
  · rcases mem_of_mem_pyReplace h1 with h2 | h2
    · exact Or.inl h2
    · exact Or.inr (by simpa using h2)
  · exact Or.inr (by simpa using h1)

lemma normalize_line_breaks_eq_self {t : Str} (h : '\r' ∉ t) :
    normalize_line_breaks t = t := by
  rw [normalize_line_breaks,
    pyReplace_eq_self_of_not_infix (not_infix_of_not_mem (by decide : '\r' ∈ ['\r', '\n']) h),
    pyReplace_eq_self_of_not_mem h]

lemma mem_remove_control_chars {a : Char} {t : Str} :
    a ∈ remove_control_chars t ↔ a ∈ t ∧ isRemovedControl a = false := by
  simp [remove_control_chars, List.mem_filter]

lemma remove_control_chars_eq_self {t : Str} (h : ∀ c ∈ t, isRemovedControl c = false) :
    remove_control_chars t = t :=
  List.filter_eq_self.mpr (fun a ha => by simp [h a ha])

lemma docxStep4_eq (t : Str) : docxStep4 t = pyReplace DOCX_STEP4_KEY [apos] t := by
  rw [docxStep4, pyReplace_self, pyReplace_self]

lemma mem_of_mem_docxStep4 {a : Char} {t : Str} (h : a ∈ docxStep4 t) : a ∈ t ∨ a = apos := by
  rw [docxStep4_eq] at h
  rcases mem_of_mem_pyReplace h with h1 | h1
  · exact Or.inl h1
  · exact Or.inr (by simpa using h1)

lemma docxStep4_eq_self {t : Str} (h : ('"' : Char) ∉ t) : docxStep4 t = t := by
  rw [docxStep4_eq]
  exact pyReplace_eq_self_of_not_infix
    (not_infix_of_not_mem (by decide : ('"' : Char) ∈ DOCX_STEP4_KEY) h)

lemma mem_of_mem_normalize_special_chars {a : Char} {t : Str}
    (h : a ∈ normalize_special_chars t) : a ∈ t ∨ a = '-' ∨ a = '.' := by
  rw [normalize_special_chars] at h
  rcases mem_of_mem_pyReplace h with h1 | h1
  · rcases mem_of_mem_pyReplace h1 with h2 | h2
    · rcases mem_of_mem_pyReplace h2 with h3 | h3
      · exact Or.inl h3
      · exact Or.inr (Or.inl (by simpa using h3))
    · exact Or.inr (Or.inl (by simpa using h2))
  · exact Or.inr (Or.inr (by simpa using h1))

lemma normalize_special_chars_eq_self {t : Str} (h1 : emDash ∉ t) (h2 : enDash ∉ t)
    (h3 : hellip ∉ t) : normalize_special_chars t = t := by
  rw [normalize_special_chars, pyReplace_eq_self_of_not_mem h1,
    pyReplace_eq_self_of_not_mem h2, pyReplace_eq_self_of_not_mem h3]

lemma not_mem_emDash_normalize_special_chars (t : Str) : emDash ∉ normalize_special_chars t := by
  intro h
  rw [normalize_special_chars] at h
  rcases mem_of_mem_pyReplace h with h1 | h1
  · rcases mem_of_mem_pyReplace h1 with h2 | h2
    · exact not_mem_pyReplace_single (by decide) h2
    · simp [emDash] at h2
  · simp [emDash] at h1

lemma not_mem_enDash_normalize_special_chars (t : Str) : enDash ∉ normalize_special_chars t := by
  intro h
  rw [normalize_special_chars] at h
  rcases mem_of_mem_pyReplace h with h1 | h1
  · exact not_mem_pyReplace_single (by decide) h1
  · simp [enDash] at h1

lemma not_mem_hellip_normalize_special_chars (t : Str) : hellip ∉ normalize_special_chars t :=
  not_mem_pyReplace_single (by decide)

lemma hasDS_normalize_special_chars {t : Str} (h : hasDS t = false) :
    hasDS (normalize_special_chars t) = false := by
  rw [normalize_special_chars]
  exact hasDS_pyReplace (by decide) (by decide)
    (hasDS_pyReplace (by decide) (by decide)
      (hasDS_pyReplace (by decide) (by decide) h))

/-- On backslash-free, quote-free input the docx pipeline reduces to its
first five stages (Step 4 is the identity there, and Steps 6-7 find nothing
to escape). -/
lemma make_json_compatible_eq_of_no_backslash_no_quote {s : Str}
    (hbs : '\\' ∉ s) (hq : ('"' : Char) ∉ s) (hne : s ≠ []) :
    make_json_compatible s =
      normalize_special_chars (collapseSpaces (remove_control_chars (normalize_line_breaks s))) := by
  have hq1 : ('"' : Char) ∉ normalize_line_breaks s := fun h => by
    rcases mem_of_mem_normalize_line_breaks h with h1 | h1
    · exact hq h1
    · simp at h1
  have hbs1 : '\\' ∉ normalize_line_breaks s := fun h => by
    rcases mem_of_mem_normalize_line_breaks h with h1 | h1
    · exact hbs h1
    · simp at h1
  have hq2 : ('"' : Char) ∉ remove_control_chars (normalize_line_breaks s) :=
    fun h => hq1 (mem_remove_control_chars.mp h).1
  have hbs2 : '\\' ∉ remove_control_chars (normalize_line_breaks s) :=
    fun h => hbs1 (mem_remove_control_chars.mp h).1
  have hq3 : ('"' : Char) ∉ collapseSpaces (remove_control_chars (normalize_line_breaks s)) :=
    fun h => hq2 (mem_of_mem_collapseSpaces h)
  have hbs3 : '\\' ∉ collapseSpaces (remove_control_chars (normalize_line_breaks s)) :=
    fun h => hbs2 (mem_of_mem_collapseSpaces h)
  have hq5 : ('"' : Char) ∉
      normalize_special_chars (collapseSpaces (remove_control_chars (normalize_line_breaks s))) :=
    fun h => by
      rcases mem_of_mem_normalize_special_chars h with h1 | h1 | h1
      · exact hq3 h1
      · simp at h1
      · simp at h1
  have hbs5 : '\\' ∉
      normalize_special_chars (collapseSpaces (remove_control_chars (normalize_line_breaks s))) :=
    fun h => by
      rcases mem_of_mem_normalize_special_chars h with h1 | h1 | h1
      · exact hbs3 h1
      · simp at h1
      · simp at h1
  rw [make_json_compatible, if_neg hne, docxStep4_eq_self hq3, escape_backslashes,
    escape_quotes, pyReplace_eq_self_of_not_mem hbs5, pyReplace_eq_self_of_not_mem hq5]

/-- The output of the first five docx stages is a fixed point of the whole
seven-stage pipeline. -/
lemma make_json_compatible_fixed_of_stage5 {s : Str} (hbs : '\\' ∉ s)
    (hq : ('"' : Char) ∉ s) :
    make_json_compatible
        (normalize_special_chars (collapseSpaces (remove_control_chars (normalize_line_breaks s)))) =
      normalize_special_chars (collapseSpaces (remove_control_chars (normalize_line_breaks s))) := by
  set t2 := remove_control_chars (normalize_line_breaks s) with ht2
  set t3 := collapseSpaces t2 with ht3
  set t5 := normalize_special_chars t3 with ht5
  by_cases hne : t5 = []
  · rw [hne, make_json_compatible]
    simp
  · have hmem3 : ∀ a : Char, a ∈ t3 → a ∈ t2 := fun a ha => mem_of_mem_collapseSpaces ha
    have hmem5 : ∀ a : Char, a ∈ t5 → a ∈ t2 ∨ a = '-' ∨ a = '.' := fun a ha => by
      rcases mem_of_mem_normalize_special_chars ha with h1 | h1
      · exact Or.inl (hmem3 a h1)
      · exact Or.inr h1
    have hcr5 : '\r' ∉ t5 := fun h => by
      rcases hmem5 _ h with h1 | h1 | h1
      · exact not_mem_cr_normalize_line_breaks _ (mem_remove_control_chars.mp h1).1
      · simp at h1
      · simp at h1
    have hctrl5 : ∀ c ∈ t5, isRemovedControl c = false := fun c hc => by
      rcases hmem5 _ hc with h1 | h1 | h1
      · exact (mem_remove_control_chars.mp h1).2
      · rw [h1]; decide
      · rw [h1]; decide
    have hq3 : ('"' : Char) ∉ t3 := fun h => by
      have h1 := (mem_remove_control_chars.mp (hmem3 _ h)).1
      rcases mem_of_mem_normalize_line_breaks h1 with h2 | h2
      · exact hq h2
      · simp at h2
    have hq5 : ('"' : Char) ∉ t5 := fun h => by
      rcases mem_of_mem_normalize_special_chars h with h1 | h1 | h1
      · exact hq3 h1
      · simp at h1
      · simp at h1
    have hbs5 : '\\' ∉ t5 := fun h => by
      rcases hmem5 _ h with h1 | h1 | h1
      · have h2 := (mem_remove_control_chars.mp h1).1
        rcases mem_of_mem_normalize_line_breaks h2 with h3 | h3
        · exact hbs h3
        · simp at h3
      · simp at h1
      · simp at h1
    have hds5 : hasDS t5 = false := hasDS_normalize_special_chars (collapseSpaces_hasDS t2)
    rw [make_json_compatible, if_neg hne, normalize_line_breaks_eq_self hcr5,
      remove_control_chars_eq_self hctrl5, collapseSpaces_eq_self hds5,
      docxStep4_eq_self hq5,
      normalize_special_chars_eq_self (not_mem_emDash_normalize_special_chars _)
        (not_mem_enDash_normalize_special_chars _) (not_mem_hellip_normalize_special_chars _),
      escape_backslashes, pyReplace_eq_self_of_not_mem hbs5,
      escape_quotes, pyReplace_eq_self_of_not_mem hq5]

/-- C2 (counterexample).  The seven-stage pipeline is not idempotent: on the
one-character input `"` the first pass yields `\"` and the second pass
re-escapes it to `\\\"`. -/
theorem make_json_compatible_not_idempotent :
    make_json_compatible (make_json_compatible ['"']) ≠ make_json_compatible ['"'] := by
  decide

/-- C2 (amended).  On every input containing neither a backslash nor an
ASCII double quote the seven-stage pipeline `_make_json_compatible` is
idempotent: its output is a fixed point of the pipeline.  (On inputs with a
backslash or a quote, Steps 6-7 re-escape their own output, so full
idempotence fails; see `make_json_compatible_not_idempotent`.) -/
theorem make_json_compatible_idempotent_of_safe (s : Str)
    (hbs : '\\' ∉ s) (hq : ('"' : Char) ∉ s) :
    make_json_compatible (make_json_compatible s) = make_json_compatible s := by
  by_cases hne : s = []
  · subst hne; rfl
  · rw [make_json_compatible_eq_of_no_backslash_no_quote hbs hq hne,
      make_json_compatible_fixed_of_stage5 hbs hq]

/-- Witness for `make_json_compatible_idempotent_of_safe` at the concrete
input `ab  cd` (which the pipeline actually changes: the double space
collapses). -/
theorem make_json_compatible_idempotent_of_safe_witness :
    make_json_compatible (make_json_compatible ("ab  cd".data)) =
      make_json_compatible ("ab  cd".data) :=
  make_json_compatible_idempotent_of_safe ("ab  cd".data) (by decide) (by decide)

lemma count_collapseSpaces {a : Char} (ha : a ≠ ' ') :
    ∀ l : Str, (collapseSpaces l).count a = l.count a := by
  intro l
  match l with
  | [] => rfl
  | [c] => rfl
  | c1 :: c2 :: rest =>
    rw [collapseSpaces]
    split
    · rename_i hg
      rw [count_collapseSpaces ha (c2 :: rest)]
      have h1 : ¬ (c1 = a) := fun h => ha (by rw [← h, hg.1])
      simp [List.count_cons, h1]
    · rw [List.count_cons, count_collapseSpaces ha (c2 :: rest)]
      simp [List.count_cons]

/-- C10 (counterexample).  `sanitize_text` can delete ASCII double quotes:
on the seven-character input `: "'", ` — the stray second key of
`QUOTE_MAPPINGS` — the whole string is replaced by a single apostrophe, so
the input contains a double quote but the output contains none (in
particular the quote does not appear unescaped in the output). -/
theorem sanitize_text_deletes_quote :
    ('"' : Char) ∈ QUOTE_KEY2 ∧ sanitize_text QUOTE_KEY2 = [apos] ∧
      ('"' : Char) ∉ sanitize_text QUOTE_KEY2 := by
  decide

/-- C10 (amended).  The text-input path `InputProcessingService.sanitize_text`
applies only the six transforms and has no quote-escaping stage: whenever the
whitespace-normalized form of the input does not contain the stray
`QUOTE_MAPPINGS` key `: "'", ` (in particular for typical text), every ASCII
double quote of the input survives to the output with its count unchanged
and is never escaped — if the input has no backslash, the output has no
backslash either, so no backslash is inserted before any quote. -/
theorem sanitize_text_preserves_quotes (s : Str)
    (hK : ¬ (QUOTE_KEY2 <:+: collapseSpaces (remove_control_chars (normalize_line_breaks s)))) :
    (sanitize_text s).count '"' = s.count '"' ∧
      ('\\' ∉ s → '\\' ∉ sanitize_text s) := by
  by_cases hne : s = []
  · subst hne
    exact ⟨rfl, fun _ h => by simp [sanitize_text] at h⟩
  · have hns : sanitize_text s =
        escape_backslashes (normalize_special_chars (normalize_quotes
          (normalize_whitespace (remove_control_chars (normalize_line_breaks s))))) := by
      rw [sanitize_text, if_neg hne]
    have hq4 : normalize_quotes
        (normalize_whitespace (remove_control_chars (normalize_line_breaks s))) =
        normalize_whitespace (remove_control_chars (normalize_line_breaks s)) := by
      rw [normalize_quotes, pyReplace_self, normalize_whitespace]
      exact pyReplace_eq_self_of_not_infix hK
    constructor
    · rw [hns, hq4, escape_backslashes, count_pyReplace (by decide) (by decide),
        normalize_special_chars, count_pyReplace (by decide) (by decide),
        count_pyReplace (by decide) (by decide), count_pyReplace (by decide) (by decide),
        normalize_whitespace, count_collapseSpaces (by decide),
        remove_control_chars, List.count_filter (by decide),
        normalize_line_breaks, count_pyReplace (by decide) (by decide),
        count_pyReplace (by decide) (by decide)]
    · intro hbs
      rw [hns, hq4]
      have hbs1 : '\\' ∉ normalize_line_breaks s := fun h => by
        rcases mem_of_mem_normalize_line_breaks h with h1 | h1
        · exact hbs h1
        · simp at h1
      have hbs2 : '\\' ∉ remove_control_chars (normalize_line_breaks s) :=
        fun h => hbs1 (mem_remove_control_chars.mp h).1
      have hbs3 : '\\' ∉ normalize_whitespace (remove_control_chars (normalize_line_breaks s)) :=
        fun h => hbs2 (mem_of_mem_collapseSpaces h)
      have hbs5 : '\\' ∉ normalize_special_chars
          (normalize_whitespace (remove_control_chars (normalize_line_breaks s))) := fun h => by
        rcases mem_of_mem_normalize_special_chars h with h1 | h1 | h1
        · exact hbs3 h1
        · simp at h1
        · simp at h1
      rw [escape_backslashes, pyReplace_eq_self_of_not_mem hbs5]
      exact hbs5

/-- Witness for `sanitize_text_preserves_quotes` at the concrete input
`a"b`. -/
theorem sanitize_text_preserves_quotes_witness :
    (sanitize_text ("a\"b".data)).count '"' = ("a\"b".data).count '"' ∧
      ('\\' ∉ "a\"b".data → '\\' ∉ sanitize_text ("a\"b".data)) :=
  sanitize_text_preserves_quotes ("a\"b".data) (by decide)

/-- Lower-case hex digit, as Python's `json.dumps` emits in `\uXXXX`. -/
def hexDigitChar (n : Nat) : Char := if n < 10 then Char.ofNat (48 + n) else Char.ofNat (87 + n)

/-- JSON string-literal escaping of one character, as the external `json`
module performs it for the characters this pipeline can produce: the two
mandatory escapes, the short escapes for the named control characters, and
`\u00XX` for the remaining C0 controls.  Characters at or above U+0020 pass
through unchanged (as with `ensure_ascii=False`; the `\uXXXX` encoding of
non-ASCII characters that `ensure_ascii=True` would add is invertible in
exactly the same way and is orthogonal to every property proved here). -/
def jsonEscapeChar (c : Char) : Str :=
  if c = '"' then ['\\', '"']
  else if c = '\\' then ['\\', '\\']
  else if c = '\n' then ['\\', 'n']
  else if c = '\r' then ['\\', 'r']
  else if c = '\t' then ['\\', 't']
  else if c = Char.ofNat 8 then ['\\', 'b']
  else if c = Char.ofNat 12 then ['\\', 'f']
  else if c.toNat < 0x20 then
    ['\\', 'u', '0', '0', hexDigitChar (c.toNat / 16), hexDigitChar (c.toNat % 16)]
  else [c]

/-- Body of the JSON string literal for `s`. -/
def jsonEscape (s : Str) : Str := s.flatMap jsonEscapeChar

/-- `json.dumps(s)` for a string `s`: the quoted literal. -/
def stringifyStr (s : Str) : Str := '"' :: (jsonEscape s ++ ['"'])

/-- `json.dumps({k: v})` for one string key and one string value, with the
default separators: `{"k": "v"}`. -/
def stringifyObj1 (k v : Str) : Str :=
  '{' :: (stringifyStr k ++ (':' :: ' ' :: (stringifyStr v ++ ['}'])))

/-- Numeric value of a hex digit. -/
def hexVal (c : Char) : Option Nat :=
  if '0' ≤ c ∧ c ≤ '9' then some (c.toNat - 48)
  else if 'a' ≤ c ∧ c ≤ 'f' then some (c.toNat - 87)
  else if 'A' ≤ c ∧ c ≤ 'F' then some (c.toNat - 55)
  else none

/-- Fuel-driven worker for the JSON string-body parser.  One unit of fuel
is spent per decoded character and each step consumes at least one input
character, so with initial fuel `input.length` the fuel never runs out. -/
def parseStringBodyF : Nat → Str → Option (Str × Str)
  | 0, _ => none
  | fuel + 1, s =>
    match s with
    | [] => none
    | c :: rest =>
      if c = '"' then some ([], rest)
      else if c = '\\' then
        match rest with
        | [] => none
        | e :: r =>
          if e = '"' then (parseStringBodyF fuel r).map (fun p => ('"' :: p.1, p.2))
          else if e = '\\' then (parseStringBodyF fuel r).map (fun p => ('\\' :: p.1, p.2))
          else if e = '/' then (parseStringBodyF fuel r).map (fun p => ('/' :: p.1, p.2))
          else if e = 'n' then (parseStringBodyF fuel r).map (fun p => ('\n' :: p.1, p.2))
          else if e = 'r' then (parseStringBodyF fuel r).map (fun p => ('\r' :: p.1, p.2))
          else if e = 't' then (parseStringBodyF fuel r).map (fun p => ('\t' :: p.1, p.2))
          else if e = 'b' then (parseStringBodyF fuel r).map (fun p => (Char.ofNat 8 :: p.1, p.2))
          else if e = 'f' then (parseStringBodyF fuel r).map (fun p => (Char.ofNat 12 :: p.1, p.2))
          else if e = 'u' then
            match r with
            | h1 :: h2 :: h3 :: h4 :: r2 =>
              match hexVal h1, hexVal h2, hexVal h3, hexVal h4 with
              | some a, some b, some c2, some d =>
                (parseStringBodyF fuel r2).map
                  (fun p => (Char.ofNat (((a * 16 + b) * 16 + c2) * 16 + d) :: p.1, p.2))
              | _, _, _, _ => none
            | _ => none
          else none
      else (parseStringBodyF fuel rest).map (fun p => (c :: p.1, p.2))

/-- JSON string-body parser: consumes characters up to an unescaped closing
quote, decoding escapes; returns the decoded string and the rest of the
input after the closing quote. -/
def parseStringBody (s : Str) : Option (Str × Str) := parseStringBodyF s.length s

/-- Parse a complete JSON string literal. -/
def parseStringLit : Str → Option (Str × Str)
  | [] => none
  | c :: rest => if c = '"' then parseStringBody rest else none

/-- `json.loads` restricted to the single-string-key, single-string-value
object shape that `stringifyObj1` produces (the only shape this repository
feeds back into `json.loads`). -/
def parseObj1 (l : Str) : Option (Str × Str) :=
  match l with
  | c0 :: c1 :: r1 =>
    if c0 = '{' ∧ c1 = '"' then
      match parseStringBody r1 with
      | none => none
      | some (k, r2) =>
        match r2 with
        | d1 :: d2 :: d3 :: r3 =>
          if d1 = ':' ∧ d2 = ' ' ∧ d3 = '"' then
            match parseStringBody r3 with
            | none => none
            | some (v, r4) => if r4 = ['}'] then some (k, v) else none
          else none
        | _ => none
    else none
  | _ => none

lemma hexVal_hexDigitChar {m : Nat} (hm : m < 16) : hexVal (hexDigitChar m) = some m := by
  interval_cases m <;> decide

/-- Each character escapes to a nonempty sequence. -/
lemma length_jsonEscape (s : Str) : s.length ≤ (jsonEscape s).length := by
  induction s with
  | nil => simp [jsonEscape]
  | cons c s' ih =>
    have hc : 1 ≤ (jsonEscapeChar c).length := by
      rw [jsonEscapeChar]
      split_ifs <;> simp
    simp only [jsonEscape, List.flatMap_cons, List.length_append, List.length_cons]
    simp only [jsonEscape] at ih
    omega

/-- Escaping then parsing a string body recovers it together with whatever
follows the closing quote. -/
lemma parseStringBodyF_escape (s : Str) :
    ∀ fuel rest, s.length < fuel →
      parseStringBodyF fuel (jsonEscape s ++ ('"' :: rest)) = some (s, rest) := by
  induction s with
  | nil =>
    intro fuel rest hf
    match fuel, hf with
    | n + 1, _ =>
      rw [show jsonEscape [] ++ ('"' :: rest) = '"' :: rest by simp [jsonEscape]]
      rw [parseStringBodyF.eq_def]
      simp
  | cons c s' ih =>
    intro fuel rest hf
    match fuel, hf with
    | n + 1, hf =>
      have hn : s'.length < n := by simpa using hf
      have hstep : jsonEscape (c :: s') ++ ('"' :: rest) =
          jsonEscapeChar c ++ (jsonEscape s' ++ ('"' :: rest)) := by
        simp [jsonEscape, List.append_assoc]
      rw [hstep]
      by_cases h1 : c = '"'
      · subst h1
        rw [show jsonEscapeChar '"' = ['\\', '"'] from rfl]
        rw [parseStringBodyF.eq_def]
        simp [ih n rest hn]
      · by_cases h2 : c = '\\'
        · subst h2
          rw [show jsonEscapeChar '\\' = ['\\', '\\'] from rfl]
          rw [parseStringBodyF.eq_def]
          simp [ih n rest hn]
        · by_cases h3 : c = '\n'
          · subst h3
            rw [show jsonEscapeChar '\n' = ['\\', 'n'] from rfl]
            rw [parseStringBodyF.eq_def]
            simp [ih n rest hn]
          · by_cases h4 : c = '\r'
            · subst h4
              rw [show jsonEscapeChar '\r' = ['\\', 'r'] from rfl]
              rw [parseStringBodyF.eq_def]
              simp [ih n rest hn]
            · by_cases h5 : c = '\t'
              · subst h5
                rw [show jsonEscapeChar '\t' = ['\\', 't'] from rfl]
                rw [parseStringBodyF.eq_def]
                simp [ih n rest hn]
              · by_cases h6 : c = Char.ofNat 8
                · subst h6
                  rw [show jsonEscapeChar (Char.ofNat 8) = ['\\', 'b'] from rfl]
                  rw [parseStringBodyF.eq_def]
                  simp [ih n rest hn]
                · by_cases h7 : c = Char.ofNat 12
                  · subst h7
                    rw [show jsonEscapeChar (Char.ofNat 12) = ['\\', 'f'] from rfl]
                    rw [parseStringBodyF.eq_def]
                    simp [ih n rest hn]
                  · by_cases h8 : c.toNat < 0x20
                    · have hesc : jsonEscapeChar c = ['\\', 'u', '0', '0',
                          hexDigitChar (c.toNat / 16), hexDigitChar (c.toNat % 16)] := by
                        rw [jsonEscapeChar, if_neg h1, if_neg h2, if_neg h3, if_neg h4,
                          if_neg h5, if_neg h6, if_neg h7, if_pos h8]
                      have hhi : c.toNat / 16 < 16 := by omega
                      have hlo : c.toNat % 16 < 16 := Nat.mod_lt _ (by omega)
                      have harith : c.toNat / 16 * 16 + c.toNat % 16 = c.toNat := by omega
                      rw [hesc, parseStringBodyF.eq_def]
                      simp [hexVal_hexDigitChar hhi, hexVal_hexDigitChar hlo,
                        (by decide : hexVal '0' = some 0),
                        ih n rest hn, harith, Char.ofNat_toNat]
                    · have hesc : jsonEscapeChar c = [c] := by
                        rw [jsonEscapeChar, if_neg h1, if_neg h2, if_neg h3, if_neg h4,
                          if_neg h5, if_neg h6, if_neg h7, if_neg h8]
                      rw [hesc, parseStringBodyF.eq_def]
                      simp [h1, h2, ih n rest hn]

/-- Round trip at the `parseStringBody` entry point. -/
lemma parseStringBody_escape (s rest : Str) :
    parseStringBody (jsonEscape s ++ ('"' :: rest)) = some (s, rest) := by
  have hlen : s.length < (jsonEscape s ++ ('"' :: rest)).length := by
    have := length_jsonEscape s
    simp only [List.length_append, List.length_cons]
    omega
  exact parseStringBodyF_escape s _ rest hlen

/-- Round trip for a full string literal. -/
lemma parseStringLit_stringifyStr (s : Str) : parseStringLit (stringifyStr s) = some (s, []) := by
  rw [stringifyStr, parseStringLit, if_pos rfl]
  exact parseStringBody_escape s []

/-- Round trip for the single-key object: `json.loads(json.dumps({k: v}))`
recovers `k` and `v` exactly. -/
lemma parseObj1_stringifyObj1 (k v : Str) : parseObj1 (stringifyObj1 k v) = some (k, v) := by
  have h1 : stringifyObj1 k v =
      '{' :: '"' :: (jsonEscape k ++
        ('"' :: (':' :: ' ' :: '"' :: (jsonEscape v ++ ('"' :: ['}']))))) := by
    simp [stringifyObj1, stringifyStr, List.append_assoc]
  rw [h1, parseObj1, if_pos ⟨rfl, rfl⟩, parseStringBody_escape k]
  simp [parseStringBody_escape v]

/-- ASCII-whitespace test of Python's `str.strip()` (Python also strips the
rarer Unicode space code points, which no claim exercises). -/
def pyIsSpace (c : Char) : Bool :=
  c = ' ' || c = '\t' || c = '\n' || c = '\r' || c.toNat == 0x0B || c.toNat == 0x0C

/-- Python `s.strip()`. -/
def pyStrip (s : Str) : Str := ((s.dropWhile pyIsSpace).reverse.dropWhile pyIsSpace).reverse

/-- A resolved python-docx paragraph: its text, whether the underlying XML
carries a `w:numPr` numbering-properties marker, and the value of its
`w:ilvl` indentation element when present. -/
structure ParagraphData where
  text : Str
  hasNumPr : Bool
  ilvl : Option Nat
deriving DecidableEq

/-- A resolved python-docx table: the cell texts of its rows. -/
structure TableData where
  rows : List (List Str)
deriving DecidableEq

/-- A raw `w:p` or `w:tbl` node as encountered by `doc.element.body.iter()`,
carrying its node identity (Python object identity, by which the source
resolves raw nodes against `doc.paragraphs` / `doc.tables`). -/
inductive BodyElem : Type
  | p (id : Nat)
  | tbl (id : Nat)
deriving DecidableEq

/-- The python-docx document model: the body nodes in document order, plus
the two identity-keyed convenience collections. -/
structure DocModel where
  body : List BodyElem
  paragraphs : List (Nat × ParagraphData)
  tables : List (Nat × TableData)
deriving DecidableEq

/-- `for p in doc.paragraphs: if p._element is element: paragraph = p; break`. -/
def resolveParagraph (ps : List (Nat × ParagraphData)) (i : Nat) : Option ParagraphData :=
  (ps.find? (fun e => e.1 == i)).map (fun e => e.2)

/-- `for t in doc.tables: if t._element is element: table = t; break`. -/
def resolveTable (ts : List (Nat × TableData)) (i : Nat) : Option TableData :=
  (ts.find? (fun e => e.1 == i)).map (fun e => e.2)

/-- `"  " * indent + "• "` (docx_parser.py line 124). -/
def listFormat (indent : Nat) : Str := (List.replicate indent [' ', ' ']).flatten ++ ['•', ' ']

/-- The paragraph classifier of `DocxParser.extract_text` (lines 112-130):
skip when the stripped text is empty; prefix list items (detected by the
`w:numPr` marker) with two spaces per indentation level (0 when `w:ilvl` is
absent) and a bullet glyph; otherwise emit the raw text. -/
def paragraphFragments (para : ParagraphData) : List Str :=
  if pyStrip para.text ≠ [] then
    if para.hasNumPr then [listFormat (para.ilvl.getD 0) ++ para.text]
    else [para.text]
  else []

/-- The table flattener of `DocxParser.extract_text` (lines 142-151): one
fragment per row, each the `" | "`-join of its stripped cell texts. -/
def tableFragments (table : TableData) : List Str :=
  table.rows.map (fun row => List.intercalate [' ', '|', ' '] (row.map pyStrip))

/-- One step of the body walk (lines 103-151): resolve the raw node by
identity; an unresolved node contributes nothing. -/
def fragmentsOfElem (ps : List (Nat × ParagraphData)) (ts : List (Nat × TableData)) :
    BodyElem → List Str
  | BodyElem.p i =>
    match resolveParagraph ps i with
    | none => []
    | some para => paragraphFragments para
  | BodyElem.tbl i =>
    match resolveTable ts i with
    | none => []
    | some table => tableFragments table

/-- All fragments of the body walk, in body order. -/
def docxTextParts (d : DocModel) : List Str :=
  d.body.flatMap (fragmentsOfElem d.paragraphs d.tables)

/-- `"\n\n".join(text_parts)` followed by `re.sub(r'\n{3,}', '\n\n', text)`
(lines 153-158). -/
def assembleText (d : DocModel) : Str :=
  collapseNewlines (List.intercalate ['\n', '\n'] (docxTextParts d))

/-- `TokenService.MODEL_LIMITS`. -/
def MODEL_LIMITS : List (String × Nat) :=
  [("gpt-3.5-turbo", 4096), ("gpt-3.5-turbo-16k", 16384), ("gpt-4", 8192),
    ("gpt-4-32k", 32768), ("gpt-4-turbo", 128000)]

/-- `TokenService.DEFAULT_MODEL`. -/
def DEFAULT_MODEL : String := "gpt-3.5-turbo"

/-- The fields of `TokenService.count_tokens`'s result used by any claim
(`percentage_used`, `is_near_limit` and `exceeds_limit` are advisory
floating-point derived fields no caller in the claims reads). -/
structure TokenCountResult where
  token_count : Nat
  model : String
  model_limit : Nat
  tokens_remaining : Nat
deriving DecidableEq

/-- `TokenService.count_tokens`, parameterized by the external tiktoken
encoder `enc` (an opaque collaborator: `token_count = len(enc(text))`). -/
def count_tokens (enc : Str → List Nat) (text : Str) (model_name : Option String) :
    TokenCountResult :=
  let model := model_name.getD DEFAULT_MODEL
  let token_count := (enc text).length
  let context_limit := ((MODEL_LIMITS.find? (fun e => e.1 == model)).map (fun e => e.2)).getD 4096
  { token_count := token_count
    model := model
    model_limit := context_limit
    tokens_remaining := if token_count < context_limit then context_limit - token_count else 0 }

/-- `DOCUMENT_TOKEN_LIMIT = 8192` (docx_parser.py line 187). -/
def DOCUMENT_TOKEN_LIMIT : Nat := 8192

/-- The post-sanitization self-check of `DocxParser.extract_text`
(lines 163-177): `json.dumps` on a string cannot raise, so the observable
checks are that the doubly-nested document of Test 2 and the direct prompt
document of Test 3 both parse. -/
def jsonSelfCheck (text : Str) : Bool :=
  (parseObj1 (stringifyObj1 ("outer".data) (stringifyObj1 ("prompt".data) text))).isSome &&
    (parseObj1 (stringifyObj1 ("prompt".data) text)).isSome

/-- The two failure modes of `DocxParser.extract_text` past document
loading: the self-check failure (`DocxParserError: Generated text is not
JSON-compatible`) and the token-budget failure (`TokenLimitError`, whose
message carries the token count and the limit). -/
inductive DocxParserFailure : Type
  | jsonCompatibility
  | tokenLimit (token_count : Nat) (limit : Nat)
deriving DecidableEq

/-- `DocxParser.extract_text` (lines 89-206) past document loading: walk the
body, assemble, sanitize, self-check, then gate on the fixed
`DOCUMENT_TOKEN_LIMIT` (the `except` of the token block swallows every
counting error except `TokenLimitError`; the counter is total here, so only
the limit check remains). -/
def docxParser_extract_text (enc : Str → List Nat) (default_model : String) (d : DocModel) :
    Except DocxParserFailure Str :=
  let text := make_json_compatible (assembleText d)
  if jsonSelfCheck text then
    if (count_tokens enc text (some default_model)).token_count > DOCUMENT_TOKEN_LIMIT then
      Except.error (DocxParserFailure.tokenLimit
        (count_tokens enc text (some default_model)).token_count DOCUMENT_TOKEN_LIMIT)
    else Except.ok text
  else Except.error DocxParserFailure.jsonCompatibility

/-- `DocxService.extract_text` (docx_service.py lines 40-58): all non-blank
paragraphs from the `doc.paragraphs` collection first, then all table rows
from the `doc.tables` collection (blank cells dropped, blank rows skipped),
joined with single newlines. -/
def docxService_text_parts (d : DocModel) : List Str :=
  (d.paragraphs.filter (fun e => pyStrip e.2.text ≠ [])).map (fun e => e.2.text) ++
    d.tables.flatMap (fun e => e.2.rows.filterMap (fun row =>
      let cells := (row.map pyStrip).filter (fun c => c ≠ [])
      if cells = [] then none else some (List.intercalate [' ', '|', ' '] cells)))

/-- `DocxService.extract_text`: `"\n".join(text_parts)`. -/
def docxService_extract_text (d : DocModel) : Str :=
  List.intercalate ['\n'] (docxService_text_parts d)

/-- A byte of the input buffer. -/
abbrev Byte := Fin 256

/-- Value of a UTF-8 continuation byte (`0x80-0xBF`). -/
def contVal (b : Byte) : Option Nat :=
  if 0x80 ≤ b.val ∧ b.val < 0xC0 then some (b.val - 0x80) else none

/-- The `utf-8` codec: strict UTF-8 decoding, rejecting stray continuation
bytes, overlong forms, surrogates and out-of-range code points, as Python's
`bytes.decode('utf-8')` does. -/
def decodeUtf8 : List Byte → Option Str
  | [] => some []
  | b :: rest =>
    if b.val < 0x80 then (decodeUtf8 rest).map (fun s => Char.ofNat b.val :: s)
    else if b.val < 0xC2 then none
    else if b.val < 0xE0 then
      match rest with
      | b2 :: rest2 =>
        match contVal b2 with
        | some v2 => (decodeUtf8 rest2).map (fun s => Char.ofNat ((b.val - 0xC0) * 0x40 + v2) :: s)
        | none => none
      | [] => none
    else if b.val < 0xF0 then
      match rest with
      | b2 :: b3 :: rest2 =>
        match contVal b2, contVal b3 with
        | some v2, some v3 =>
          let cp := (b.val - 0xE0) * 0x1000 + v2 * 0x40 + v3
          if cp < 0x800 ∨ (0xD800 ≤ cp ∧ cp < 0xE000) then none
          else (decodeUtf8 rest2).map (fun s => Char.ofNat cp :: s)
        | _, _ => none
      | _ => none
    else if b.val < 0xF5 then
      match rest with
      | b2 :: b3 :: b4 :: rest2 =>
        match contVal b2, contVal b3, contVal b4 with
        | some v2, some v3, some v4 =>
          let cp := (b.val - 0xF0) * 0x40000 + v2 * 0x1000 + v3 * 0x40 + v4
          if cp < 0x10000 ∨ 0x10FFFF < cp then none
          else (decodeUtf8 rest2).map (fun s => Char.ofNat cp :: s)
        | _, _, _ => none
      | _ => none
    else none

/-- The `utf-8-sig` codec: strip one leading byte-order mark if present,
then decode as UTF-8. -/
def decodeUtf8Sig (bs : List Byte) : Option Str :=
  if List.isPrefixOf [(0xEF : Byte), 0xBB, 0xBF] bs then decodeUtf8 (bs.drop 3)
  else decodeUtf8 bs

/-- The `latin-1` codec: every byte maps to the code point of the same
value, so decoding cannot fail. -/
def decodeLatin1Opt (bs : List Byte) : Option Str :=
  some (bs.map (fun b => Char.ofNat b.val))

/-- `for encoding in encodings: try: content = file_content.decode(encoding); break` —
first decoder that succeeds wins. -/
def firstSuccess : List (List Byte → Option Str) → List Byte → Option Str
  | [], _ => none
  | d :: ds, bs =>
    match d bs with
    | some s => some s
    | none => firstSuccess ds bs

/-- `encodings = ['utf-8', 'utf-8-sig', 'latin-1']` (txt_service.py line 34). -/
def txt_encodings : List (List Byte → Option Str) := [decodeUtf8, decodeUtf8Sig, decodeLatin1Opt]

/-- `TxtServiceError` raised when `content is None` after the loop. -/
inductive TxtServiceFailure : Type
  | decodeFailure
deriving DecidableEq

/-- `TxtService.extract_text` (lines 28-57): try the encodings in order,
fail if none decodes, then `content.strip()`. -/
def txtService_extract_text (bs : List Byte) : Except TxtServiceFailure Str :=
  match firstSuccess txt_encodings bs with
  | none => Except.error TxtServiceFailure.decodeFailure
  | some content => Except.ok (pyStrip content)

/-- C9.  Raw-text extraction tries `utf-8`, then `utf-8-sig`, then
`latin-1`, accepting the first that decodes; since `latin-1` decoding is
total, the decode step never fails: for every byte buffer the extraction
returns a decoded (stripped) string, never a decoding error — and when
strict UTF-8 decoding succeeds, its result is the one used. -/
theorem txtService_extract_text_never_fails (bs : List Byte) :
    (∃ s, txtService_extract_text bs = Except.ok s) ∧
      (∀ s, decodeUtf8 bs = some s → txtService_extract_text bs = Except.ok (pyStrip s)) := by
  constructor
  · cases h1 : decodeUtf8 bs with
    | some s => exact ⟨pyStrip s, by simp [txtService_extract_text, txt_encodings, firstSuccess, h1]⟩
    | none =>
      cases h2 : decodeUtf8Sig bs with
      | some s =>
        exact ⟨pyStrip s, by simp [txtService_extract_text, txt_encodings, firstSuccess, h1, h2]⟩
      | none =>
        exact ⟨pyStrip (bs.map (fun b => Char.ofNat b.val)),
          by simp [txtService_extract_text, txt_encodings, firstSuccess, h1, h2, decodeLatin1Opt]⟩
  · intro s hs
    simp [txtService_extract_text, txt_encodings, firstSuccess, hs]

/-- The self-check never fails: `json.dumps` output always parses back. -/
lemma jsonSelfCheck_true (text : Str) : jsonSelfCheck text = true := by
  simp [jsonSelfCheck, parseObj1_stringifyObj1]

/-- C6.  The paragraph classifier: a paragraph whose stripped text is empty
contributes no fragment; a paragraph carrying the numbering-properties
marker is rendered as two spaces per indentation level (0 when `w:ilvl` is
absent) followed by the bullet glyph and one space and the raw text — at
level 2 exactly four leading spaces; a paragraph without the marker is
emitted raw. -/
theorem paragraphFragments_spec (para : ParagraphData) :
    (pyStrip para.text = [] → paragraphFragments para = []) ∧
    (pyStrip para.text ≠ [] → para.hasNumPr = true →
      paragraphFragments para =
        [(List.replicate (para.ilvl.getD 0) [' ', ' ']).flatten ++ ('•' :: ' ' :: para.text)]) ∧
    (pyStrip para.text ≠ [] → para.hasNumPr = false →
      paragraphFragments para = [para.text]) ∧
    (pyStrip para.text ≠ [] → para.hasNumPr = true → para.ilvl = some 2 →
      paragraphFragments para = [' ' :: ' ' :: ' ' :: ' ' :: '•' :: ' ' :: para.text]) := by
  refine ⟨?_, ?_, ?_, ?_⟩
  · intro h; simp [paragraphFragments, h]
  · intro h hn; simp [paragraphFragments, h, hn, listFormat, List.append_assoc]
  · intro h hn; simp [paragraphFragments, h, hn]
  · intro h hn hl; simp [paragraphFragments, h, hn, hl, listFormat]

/-- Witness for `paragraphFragments_spec`: a level-2 list item is rendered
with exactly four leading spaces, the bullet and one space. -/
theorem paragraphFragments_spec_witness :
    paragraphFragments ⟨"item".data, true, some 2⟩ =
      [' ' :: ' ' :: ' ' :: ' ' :: '•' :: ' ' :: ("item".data)] :=
  (paragraphFragments_spec ⟨"item".data, true, some 2⟩).2.2.2 (by decide) rfl rfl

/-- C5.  Stage 7 escapes ASCII double quotes: the document text
`Hello, "World"` sanitizes (through all seven stages) to the literal
characters `Hello, \"World\"`, and reading those characters back as the
body of a JSON string literal recovers exactly `Hello, "World"`. -/
theorem make_json_compatible_quote_example :
    make_json_compatible ("Hello, \"World\"".data) = "Hello, \\\"World\\\"".data ∧
      escape_quotes ("Hello, \"World\"".data) = "Hello, \\\"World\\\"".data ∧
      parseStringBody ("Hello, \\\"World\\\"".data ++ ['"']) =
        some ("Hello, \"World\"".data, []) := by
  decide

/-- C7.  A zero-block document extracts to the empty string and never
errors: the assembler yields `""`, the sanitizer maps `""` to itself, the
JSON self-check passes, and the token gate cannot fire as long as the
encoder gives the empty text no more than `DOCUMENT_TOKEN_LIMIT` tokens
(tiktoken gives it 0). -/
theorem zero_block_extraction (enc : Str → List Nat) (model : String)
    (h : (enc []).length ≤ DOCUMENT_TOKEN_LIMIT) (ps : List (Nat × ParagraphData))
    (ts : List (Nat × TableData)) :
    docxParser_extract_text enc model ⟨[], ps, ts⟩ = Except.ok [] := by
  have htext : make_json_compatible (assembleText ⟨[], ps, ts⟩) = [] := rfl
  have hc : (count_tokens enc [] (some model)).token_count = (enc []).length := rfl
  have h8 : (enc []).length ≤ 8192 := by simpa [DOCUMENT_TOKEN_LIMIT] using h
  rw [docxParser_extract_text, htext, if_pos (jsonSelfCheck_true []),
    if_neg (by simp only [hc, DOCUMENT_TOKEN_LIMIT]; omega)]

/-- Witness for `zero_block_extraction` with a trivial encoder. -/
theorem zero_block_extraction_witness :
    docxParser_extract_text (fun _ => []) "gpt-4" ⟨[], [], []⟩ = Except.ok [] :=
  zero_block_extraction (fun _ => []) "gpt-4" (by decide) [] []

/-- Equality of extraction results is decidable (needed to evaluate the
model on concrete inputs). -/
instance {e a : Type} [DecidableEq e] [DecidableEq a] : DecidableEq (Except e a) := fun x y =>
  match x, y with
  | Except.ok u, Except.ok v =>
    if h : u = v then isTrue (by rw [h]) else isFalse (fun hc => by cases hc; exact h rfl)
  | Except.error u, Except.error v =>
    if h : u = v then isTrue (by rw [h]) else isFalse (fun hc => by cases hc; exact h rfl)
  | Except.ok _, Except.error _ => isFalse (fun hc => by cases hc)
  | Except.error _, Except.ok _ => isFalse (fun hc => by cases hc)

/-- C4 (amended).  The token gate of `extract_text` compares the token count
against the fixed `DOCUMENT_TOKEN_LIMIT = 8192`, not against the model's
`model_limit`: extraction fails exactly when the counter reports more than
8192 tokens for the sanitized text, and the budget error then carries the
token count and 8192; otherwise extraction returns the sanitized text, with
the counter's `model_limit` playing no role at all. -/
theorem token_gate_spec (enc : Str → List Nat) (model : String) (d : DocModel) :
    docxParser_extract_text enc model d =
      if (enc (make_json_compatible (assembleText d))).length > DOCUMENT_TOKEN_LIMIT then
        Except.error (DocxParserFailure.tokenLimit
          ((enc (make_json_compatible (assembleText d))).length) DOCUMENT_TOKEN_LIMIT)
      else Except.ok (make_json_compatible (assembleText d)) := by
  rw [docxParser_extract_text, if_pos (jsonSelfCheck_true _)]
  rfl

/-- A counter stub reporting 5000 tokens (against `gpt-3.5-turbo`'s 4096
model limit). -/
def enc5000 : Str → List Nat := fun _ => List.replicate 5000 0

/-- A one-paragraph document. -/
def sampleDoc1 : DocModel :=
  { body := [BodyElem.p 0], paragraphs := [(0, ⟨"Hi".data, false, none⟩)], tables := [] }

/-- C4 (counterexample).  With a counter returning
`{tokenCount: 5000, modelLimit: 4096}` the claim demands a budget-exceeded
failure, but extraction succeeds: 5000 does not exceed the fixed
`DOCUMENT_TOKEN_LIMIT = 8192` that the code actually checks. -/
theorem token_gate_counterexample :
    (count_tokens enc5000 (make_json_compatible (assembleText sampleDoc1))
        (some "gpt-3.5-turbo")).token_count = 5000 ∧
      (count_tokens enc5000 (make_json_compatible (assembleText sampleDoc1))
        (some "gpt-3.5-turbo")).model_limit = 4096 ∧
      docxParser_extract_text enc5000 "gpt-3.5-turbo" sampleDoc1 = Except.ok ("Hi".data) := by
  have htc : (count_tokens enc5000 (make_json_compatible (assembleText sampleDoc1))
      (some "gpt-3.5-turbo")).token_count = 5000 := by
    show (List.replicate 5000 (0 : Nat)).length = 5000
    rw [List.length_replicate]
  refine ⟨htc, rfl, ?_⟩
  rw [docxParser_extract_text, if_pos (jsonSelfCheck_true _), if_neg (by rw [htc]; decide)]
  decide

/-- C1.  Whatever string `extract_text` returns satisfies the dual JSON
round-trip: wrapping it once as a JSON string value and parsing recovers it,
and stringifying that whole document again into an outer JSON object,
parsing the outer document and re-parsing its inner field also recovers it. -/
theorem extract_text_json_roundtrip (enc : Str → List Nat) (model : String) (d : DocModel)
    (T : Str) (_h : docxParser_extract_text enc model d = Except.ok T) :
    parseObj1 (stringifyObj1 ("x".data) T) = some ("x".data, T) ∧
      (parseObj1 (stringifyObj1 ("outer".data) (stringifyObj1 ("p".data) T))).bind
        (fun kv => parseObj1 kv.2) = some ("p".data, T) := by
  refine ⟨parseObj1_stringifyObj1 _ _, ?_⟩
  rw [parseObj1_stringifyObj1]
  simp [parseObj1_stringifyObj1]

/-- Witness for `extract_text_json_roundtrip`: a document whose sanitized
output `Hi \"q\"` contains escape sequences, extracted with a trivial
encoder. -/
theorem extract_text_json_roundtrip_witness :
    parseObj1 (stringifyObj1 ("x".data) ("Hi \\\"q\\\"".data)) =
        some ("x".data, "Hi \\\"q\\\"".data) ∧
      (parseObj1 (stringifyObj1 ("outer".data)
          (stringifyObj1 ("p".data) ("Hi \\\"q\\\"".data)))).bind
        (fun kv => parseObj1 kv.2) = some ("p".data, "Hi \\\"q\\\"".data) :=
  extract_text_json_roundtrip (fun _ => []) "gpt-4"
    { body := [BodyElem.p 0], paragraphs := [(0, ⟨"Hi \"q\"".data, false, none⟩)], tables := [] }
    ("Hi \\\"q\\\"".data) (by decide)

/-- With pairwise-distinct keys, a keyed entry is determined by its key. -/
lemma key_inj_of_nodup {b : Type} :
    ∀ {l : List (Nat × b)}, (l.map Prod.fst).Nodup →
      ∀ {x y : Nat × b}, x ∈ l → y ∈ l → x.1 = y.1 → x = y := by
  intro l
  induction l with
  | nil => intro _ x y hx; simp at hx
  | cons z t ih =>
    intro hnd x y hx hy hk
    rw [List.map_cons, List.nodup_cons] at hnd
    rcases List.mem_cons.mp hx with hx1 | hx1 <;> rcases List.mem_cons.mp hy with hy1 | hy1
    · rw [hx1, hy1]
    · exfalso
      apply hnd.1
      rw [hx1] at hk
      rw [hk]
      exact List.mem_map_of_mem Prod.fst hy1
    · exfalso
      apply hnd.1
      rw [hy1] at hk
      rw [← hk]
      exact List.mem_map_of_mem Prod.fst hx1
    · exact ih hnd.2 hx1 hy1 hk

/-- Identity lookup (`for p in collection: if p._element is element`) is
insensitive to the collection's enumeration order when identities are
pairwise distinct. -/
lemma find?_key_of_perm {b : Type} {l l' : List (Nat × b)} (hperm : l'.Perm l)
    (hnd : (l.map Prod.fst).Nodup) (i : Nat) :
    l'.find? (fun e => e.1 == i) = l.find? (fun e => e.1 == i) := by
  cases h : List.find? (fun e => e.1 == i) l with
  | none =>
    rw [List.find?_eq_none] at h ⊢
    intro x hx
    exact h x (hperm.mem_iff.mp hx)
  | some u =>
    have hu_mem : u ∈ l := List.mem_of_find?_eq_some h
    have hu_key : u.1 = i := by simpa using List.find?_some h
    cases h' : List.find? (fun e => e.1 == i) l' with
    | none =>
      rw [List.find?_eq_none] at h'
      have := h' u (hperm.mem_iff.mpr hu_mem)
      simp [hu_key] at this
    | some v =>
      have hv_mem : v ∈ l := hperm.mem_iff.mp (List.mem_of_find?_eq_some h')
      have hv_key : v.1 = i := by simpa using List.find?_some h'
      rw [key_inj_of_nodup hnd hv_mem hu_mem (hv_key.trans hu_key.symm)]

/-- C3 (amended).  For the ordered-walker path `DocxParser.extract_text`,
the emitted fragments depend only on the body's block order and content:
permuting the separately exposed paragraph and table collections (whose
node identities are pairwise distinct, as object identities are) leaves
the fragment list unchanged.  (The concrete order `[P1, r1, r2, P2]` for a
body `[P1, Table(r1, r2), P2]` is proved in
`docxService_ignores_body_order`, which also shows the claim fails for
`DocxService.extract_text`.) -/
theorem docxTextParts_collection_order_invariant (d : DocModel)
    (ps' : List (Nat × ParagraphData)) (ts' : List (Nat × TableData))
    (hp : ps'.Perm d.paragraphs) (ht : ts'.Perm d.tables)
    (hpn : (d.paragraphs.map Prod.fst).Nodup) (htn : (d.tables.map Prod.fst).Nodup) :
    docxTextParts { body := d.body, paragraphs := ps', tables := ts' } = docxTextParts d := by
  have hfun : fragmentsOfElem ps' ts' = fragmentsOfElem d.paragraphs d.tables := by
    funext e
    cases e with
    | p i => simp only [fragmentsOfElem, resolveParagraph, find?_key_of_perm hp hpn i]
    | tbl i => simp only [fragmentsOfElem, resolveTable, find?_key_of_perm ht htn i]
  rw [docxTextParts, docxTextParts, hfun]

/-- A body `[P1, Table(r1, r2), P2]` with its collections. -/
def sampleDoc3 : DocModel :=
  { body := [BodyElem.p 0, BodyElem.tbl 1, BodyElem.p 2]
    paragraphs := [(0, ⟨"P1".data, false, none⟩), (2, ⟨"P2".data, false, none⟩)]
    tables := [(1, ⟨[["R1".data], ["R2".data]]⟩)] }

/-- Witness for `docxTextParts_collection_order_invariant`: reversing the
paragraph collection of `sampleDoc3` changes nothing. -/
theorem docxTextParts_collection_order_invariant_witness :
    docxTextParts { body := sampleDoc3.body
                    paragraphs := [(2, ⟨"P2".data, false, none⟩), (0, ⟨"P1".data, false, none⟩)]
                    tables := sampleDoc3.tables } = docxTextParts sampleDoc3 :=
  docxTextParts_collection_order_invariant sampleDoc3
    [(2, ⟨"P2".data, false, none⟩), (0, ⟨"P1".data, false, none⟩)] sampleDoc3.tables
    (List.Perm.swap _ _ _) (List.Perm.refl _) (by decide) (by decide)

/-- C3 (counterexample).  The walker path emits `[P1, r1, r2, P2]` for the
body `[P1, Table(r1, r2), P2]`, but `DocxService.extract_text` — one of the
two extraction routines the claim covers — enumerates the paragraph
collection and then the table collection, emitting `[P1, P2, r1, r2]`:
its fragment order follows the collections, not the body. -/
theorem docxService_ignores_body_order :
    docxTextParts sampleDoc3 = ["P1".data, "R1".data, "R2".data, "P2".data] ∧
      docxService_text_parts sampleDoc3 = ["P1".data, "P2".data, "R1".data, "R2".data] ∧
      docxService_text_parts sampleDoc3 ≠ ["P1".data, "R1".data, "R2".data, "P2".data] := by
  decide

/-- Whether a raw body node resolves against the collections. -/
def resolves (ps : List (Nat × ParagraphData)) (ts : List (Nat × TableData)) :
    BodyElem → Bool
  | BodyElem.p i => (resolveParagraph ps i).isSome
  | BodyElem.tbl i => (resolveTable ts i).isSome

/-- C8.  A body node that cannot be resolved by identity is skipped and the
walk continues: the extraction of a document containing the unresolved node
equals — all the way through assembly, sanitization, self-check and token
gate — the extraction of the document with that node removed, so a
resolution miss never aborts extraction and every other node is still
processed. -/
theorem walker_skips_unresolved (ps : List (Nat × ParagraphData))
    (ts : List (Nat × TableData)) (pre post : List BodyElem) (e : BodyElem)
    (h : resolves ps ts e = false) :
    docxTextParts ⟨pre ++ e :: post, ps, ts⟩ = docxTextParts ⟨pre ++ post, ps, ts⟩ ∧
      ∀ (enc : Str → List Nat) (model : String),
        docxParser_extract_text enc model ⟨pre ++ e :: post, ps, ts⟩ =
          docxParser_extract_text enc model ⟨pre ++ post, ps, ts⟩ := by
  have hfrag : fragmentsOfElem ps ts e = [] := by
    cases e with
    | p i =>
      have hr : resolveParagraph ps i = none := by
        cases hr : resolveParagraph ps i with
        | none => rfl
        | some _ => simp [resolves, hr] at h
      simp [fragmentsOfElem, hr]
    | tbl i =>
      have hr : resolveTable ts i = none := by
        cases hr : resolveTable ts i with
        | none => rfl
        | some _ => simp [resolves, hr] at h
      simp [fragmentsOfElem, hr]
  have hparts : docxTextParts ⟨pre ++ e :: post, ps, ts⟩ = docxTextParts ⟨pre ++ post, ps, ts⟩ := by
    simp [docxTextParts, List.flatMap_append, List.flatMap_cons, hfrag]
  refine ⟨hparts, fun enc model => ?_⟩
  have hassemble : assembleText ⟨pre ++ e :: post, ps, ts⟩ = assembleText ⟨pre ++ post, ps, ts⟩ := by
    rw [assembleText, assembleText, hparts]
  rw [docxParser_extract_text, docxParser_extract_text, hassemble]

/-- Witness for `walker_skips_unresolved`: node 7 has no counterpart in the
collections; dropping it changes neither the fragments nor the extraction
result. -/
theorem walker_skips_unresolved_witness :
    docxTextParts ⟨[BodyElem.p 0, BodyElem.p 7, BodyElem.p 1],
          [(0, ⟨"A".data, false, none⟩), (1, ⟨"B".data, false, none⟩)], []⟩ =
        docxTextParts ⟨[BodyElem.p 0, BodyElem.p 1],
          [(0, ⟨"A".data, false, none⟩), (1, ⟨"B".data, false, none⟩)], []⟩ ∧
      docxParser_extract_text (fun _ => []) "gpt-4"
          ⟨[BodyElem.p 0, BodyElem.p 7, BodyElem.p 1],
            [(0, ⟨"A".data, false, none⟩), (1, ⟨"B".data, false, none⟩)], []⟩ =
        docxParser_extract_text (fun _ => []) "gpt-4"
          ⟨[BodyElem.p 0, BodyElem.p 1],
            [(0, ⟨"A".data, false, none⟩), (1, ⟨"B".data, false, none⟩)], []⟩ :=
  ⟨(walker_skips_unresolved [(0, ⟨"A".data, false, none⟩), (1, ⟨"B".data, false, none⟩)] []
      [BodyElem.p 0] [BodyElem.p 1] (BodyElem.p 7) (by decide)).1,
    (walker_skips_unresolved [(0, ⟨"A".data, false, none⟩), (1, ⟨"B".data, false, none⟩)] []
      [BodyElem.p 0] [BodyElem.p 1] (BodyElem.p 7) (by decide)).2 (fun _ => []) "gpt-4"⟩
